import Mathlib

/-!
Verification of the frmuv2 schema-reconciliation and safe-update engine.

Shallow embedding of the TypeScript source (src/services/excelService.ts,
src/services/storageService.ts and the SearchPanel component) into Lean.
Cell values are modelled as strings: every site in the source that reads a
cell first coerces it with String(...), so the string image is the observable
value.  JavaScript case mapping is modelled ASCII-wise (the repository's
header and identifier data is ASCII), and JavaScript local-time date getters
are modelled with an explicit timezone-offset parameter (minutes east of
UTC), so every function is a total, executable Lean definition.
-/

namespace Frmu

/-- Whitespace predicate used by the String.prototype.trim model (ASCII
whitespace; the exotic Unicode space characters never occur in the
repository's data). -/
def isWsChar (c : Char) : Bool :=
  c = ' ' || c = '\t' || c = '\n' || c = '\r' || c.toNat = 11 || c.toNat = 12

/-- Model of JavaScript String.prototype.trim. -/
def jsTrim (s : String) : String :=
  String.mk (((s.data.dropWhile isWsChar).reverse.dropWhile isWsChar).reverse)

/-- Character class [a-z0-9] of the normalizer's keep-set. -/
def isLowerAlnum (c : Char) : Bool :=
  (97 ≤ c.toNat && c.toNat ≤ 122) || (48 ≤ c.toNat && c.toNat ≤ 57)

/-- ASCII lower-casing of one character, modelling toLowerCase on the
repository's ASCII data. -/
def toLowerChar (c : Char) : Char :=
  if 65 ≤ c.toNat && c.toNat ≤ 90 then Char.ofNat (c.toNat + 32) else c

/-- Model of normalizeKey (excelService.ts lines 18-20): lower-case, then
remove every character outside [a-z0-9]. -/
def normalizeKey (s : String) : String :=
  String.mk ((s.data.map toLowerChar).filter isLowerAlnum)

/-- Model of normalizeKey applied to a possibly undefined key: the source
evaluates String(key or-else the empty string), so a missing key yields
the empty key. -/
def normalizeKeyOpt : Option String → String
  | none => ""
  | some s => normalizeKey s

theorem toLowerChar_fixed {c : Char} (h : isLowerAlnum c = true) :
    toLowerChar c = c := by
  unfold toLowerChar
  unfold isLowerAlnum at h
  simp only [Bool.or_eq_true, Bool.and_eq_true, decide_eq_true_eq] at h
  have : ¬(65 ≤ c.toNat && c.toNat ≤ 90) = true := by
    simp only [Bool.and_eq_true, decide_eq_true_eq, not_and, not_le]
    omega
  simp [this]

theorem isLowerAlnum_toLowerChar_of {c : Char} (h : isLowerAlnum c = true) :
    isLowerAlnum (toLowerChar c) = true := by
  rw [toLowerChar_fixed h]; exact h

/-- Claim C9: the key normalizer is idempotent, and is total over any input
including the empty and undefined cases, which yield the empty key. -/
theorem C9_normalize_idempotent :
    (∀ s : String, normalizeKey (normalizeKey s) = normalizeKey s) ∧
    normalizeKey "" = "" ∧ normalizeKeyOpt none = "" ∧
    (∀ s : String, normalizeKeyOpt (some s) = normalizeKey s) := by
  refine ⟨?_, rfl, rfl, fun _ => rfl⟩
  intro s
  unfold normalizeKey
  congr 1
  generalize s.data = l
  induction l with
  | nil => rfl
  | cons c rest ih =>
    by_cases h : isLowerAlnum (toLowerChar c) = true
    · simp only [List.map_cons, List.filter_cons, h, if_pos,
        toLowerChar_fixed h] at ih ⊢
      simp [h, ih]
    · simp only [List.map_cons, List.filter_cons]
      rw [Bool.not_eq_true] at h
      simp [h, ih]

/-! Substring search, digits and JavaScript number parsing. -/

/-- Decidable prefix test on character lists. -/
def listStartsWith : List Char → List Char → Bool
  | [], _ => true
  | _ :: _, [] => false
  | a :: as, b :: bs => a = b && listStartsWith as bs

/-- Decidable substring test on character lists (needle, haystack). -/
def listContainsSub (needle : List Char) : List Char → Bool
  | [] => needle.isEmpty
  | b :: rest => listStartsWith needle (b :: rest) || listContainsSub needle rest

/-- Model of hay.includes(needle) on JavaScript strings. -/
def strIncludes (hay needle : String) : Bool :=
  listContainsSub needle.data hay.data

/-- Model of String.prototype.toLowerCase, ASCII-wise. -/
def lowerStr (s : String) : String :=
  String.mk (s.data.map toLowerChar)

def isDigitChar (c : Char) : Bool := 48 ≤ c.toNat && c.toNat ≤ 57

def digitsVal (l : List Char) : Nat :=
  l.foldl (fun a c => a * 10 + (c.toNat - 48)) 0

def isAlphaChar (c : Char) : Bool :=
  (65 ≤ c.toNat && c.toNat ≤ 90) || (97 ≤ c.toNat && c.toNat ≤ 122)

/-- Value of one digit in radix up to 16, or none. -/
def radixDigitVal (radix : Nat) (c : Char) : Option Nat :=
  let v :=
    if 48 ≤ c.toNat && c.toNat ≤ 57 then some (c.toNat - 48)
    else if 97 ≤ c.toNat && c.toNat ≤ 102 then some (c.toNat - 87)
    else if 65 ≤ c.toNat && c.toNat ≤ 70 then some (c.toNat - 55)
    else none
  match v with
  | some n => if n < radix then some n else none
  | none => none

def radixVal (radix : Nat) (l : List Char) : Option Nat :=
  l.foldl (fun acc c =>
    match acc, radixDigitVal radix c with
    | some a, some d => some (a * radix + d)
    | _, _ => none) (some 0)

/-- Exact rational value of a parsed numeric literal, kept as an unnormalized
fraction with a positive denominator so that every operation reduces in the
kernel (the library rational normalizes through gcd, which does not). -/
structure DecQ where
  num : Int
  den : Nat
  dpos : 0 < den

/-- Integer as a DecQ. -/
def DecQ.ofInt (n : Int) : DecQ := ⟨n, 1, Nat.one_pos⟩

/-- Negation of a DecQ. -/
def DecQ.neg (q : DecQ) : DecQ := ⟨-q.num, q.den, q.dpos⟩

/-- Multiplication of a DecQ by a power of ten. -/
def DecQ.mulPow10 (q : DecQ) (k : Nat) : DecQ := ⟨q.num * (10 : Int) ^ k, q.den, q.dpos⟩

/-- Division of a DecQ by a power of ten. -/
def DecQ.divPow10 (q : DecQ) (k : Nat) : DecQ :=
  ⟨q.num, q.den * 10 ^ k, Nat.mul_pos q.dpos (Nat.pos_pow_of_pos k (by omega))⟩

/-- Strict comparison of an integer against a DecQ. -/
def intLtQ (n : Int) (q : DecQ) : Bool := n * q.den < q.num

/-- Strict comparison of a DecQ against an integer. -/
def qLtInt (q : DecQ) (n : Int) : Bool := q.num < n * q.den

/-- Result of coercing a string with the JavaScript Number function: a finite
value, an infinity, or NaN (modelled as none at the call sites). -/
inductive JNum where
  | finite (q : DecQ)
  | posInf
  | negInf

/-- Exponent tail of a decimal literal: empty, or e or E, an optional sign and
digits; applied to the mantissa. -/
def applyDecExp (q : DecQ) (rest : List Char) : Option DecQ :=
  match rest with
  | [] => some q
  | e :: r1 =>
    if e = 'e' || e = 'E' then
      let (sgn, r2) :=
        match r1 with
        | '+' :: r => (true, r)
        | '-' :: r => (false, r)
        | r => (true, r)
      let (ds, r3) := r2.span isDigitChar
      if ds.isEmpty || !r3.isEmpty then none
      else if sgn then some (q.mulPow10 (digitsVal ds))
      else some (q.divPow10 (digitsVal ds))
    else none

/-- DecQ with value ip.fp, the fraction part fp carrying k digits. -/
def decMantissa (ip fp k : Nat) : DecQ :=
  ⟨ip * (10 : Int) ^ k + fp, 10 ^ k, Nat.pos_pow_of_pos k (by omega)⟩

/-- Unsigned decimal literal as the Number function reads it: digits, an
optional point with more digits, and an optional exponent; the whole string
must be consumed. -/
def parseDecMag (l : List Char) : Option DecQ :=
  let (ip, r1) := l.span isDigitChar
  match r1 with
  | '.' :: r2 =>
    let (fp, r3) := r2.span isDigitChar
    if ip.isEmpty && fp.isEmpty then none
    else applyDecExp (decMantissa (digitsVal ip) (digitsVal fp) fp.length) r3
  | _ => if ip.isEmpty then none else applyDecExp (DecQ.ofInt (digitsVal ip)) r1

/-- Unsigned magnitude accepted after an optional sign: Infinity or a decimal
literal. -/
def parseSignedMag (l : List Char) : Option JNum :=
  if l = "Infinity".data then some .posInf
  else (parseDecMag l).map .finite

/-- Model of the JavaScript Number coercion of an already trimmed string
(the call site trims first): empty means zero; a radix prefix 0x, 0o or 0b
without a sign; otherwise an optional sign and a decimal literal or
Infinity; anything else is NaN (none). -/
def jsNumber (s : String) : Option JNum :=
  match s.data with
  | [] => some (.finite (DecQ.ofInt 0))
  | '+' :: rest => parseSignedMag rest
  | '-' :: rest =>
    (parseSignedMag rest).map fun n =>
      match n with
      | .finite q => .finite q.neg
      | .posInf => .negInf
      | .negInf => .posInf
  | '0' :: c :: rest =>
    if c = 'x' || c = 'X' then
      if rest.isEmpty then none
      else (radixVal 16 rest).map (fun n => .finite (DecQ.ofInt n))
    else if c = 'o' || c = 'O' then
      if rest.isEmpty then none
      else (radixVal 8 rest).map (fun n => .finite (DecQ.ofInt n))
    else if c = 'b' || c = 'B' then
      if rest.isEmpty then none
      else (radixVal 2 rest).map (fun n => .finite (DecQ.ofInt n))
    else parseSignedMag ('0' :: c :: rest)
  | l => parseSignedMag l

/-! Calendar arithmetic: proleptic Gregorian civil date from a day count
relative to 1970-01-01 and back (the standard era-based algorithm), modelling
the JavaScript Date field getters on an epoch-millisecond value. -/

/-- Civil date (year, month, day) of the day numbered z, day 0 being
1970-01-01. -/
def civilFromDays (z : Int) : Int × Nat × Nat :=
  let zs := z + 719468
  let era : Int := Int.fdiv zs 146097
  let doe : Nat := (Int.fmod zs 146097).toNat
  let yoe : Nat := (doe - doe / 1460 + doe / 36524 - doe / 146096) / 365
  let doy : Nat := doe - (365 * yoe + yoe / 4 - yoe / 100)
  let mp : Nat := (5 * doy + 2) / 153
  let d : Nat := doy - (153 * mp + 2) / 5 + 1
  let m : Nat := if mp < 10 then mp + 3 else mp - 9
  (era * 400 + yoe + (if m ≤ 2 then 1 else 0), m, d)

/-- Day count of a civil date, day 0 being 1970-01-01; linear in the day
argument, so an out-of-range day rolls over exactly as the JavaScript Date
constructor rolls it. -/
def daysFromCivil (y : Int) (m : Nat) (d : Int) : Int :=
  let ya := y - (if m ≤ 2 then 1 else 0)
  let era : Int := Int.fdiv ya 400
  let yoe : Nat := (Int.fmod ya 400).toNat
  let mp : Nat := if 2 < m then m - 3 else m + 9
  let doy : Int := ((153 * mp + 2) / 5 : Nat) + d - 1
  let doe : Int := (365 * yoe + yoe / 4 - yoe / 100 : Nat) + doy
  era * 146097 + doe - 719468

/-- Two-digit zero padding of the month and day fields. -/
def pad2 (n : Nat) : String :=
  if n < 10 then "0" ++ toString n else toString n

/-- Model of Math.round on a DecQ: floor of the argument plus one half,
computed as a floor division of integers (the denominator is positive). -/
def jsRound (q : DecQ) : Int := Int.fdiv (2 * q.num + q.den) (2 * q.den)

/-- Epoch milliseconds the serial branch computes,
Math.round((num - 25569) * 86400 * 1000) + 43200000: day-count epoch
1899-12-30 (serial 25569 is 1970-01-01) with a 12-hour offset. -/
def serialMs (q : DecQ) : Int :=
  jsRound ⟨(q.num - 25569 * q.den) * 86400000, q.den, q.dpos⟩ + 43200000

/-- MM/DD/YYYY rendering of a civil date as the source formats it with
getFullYear, getMonth and getDate. -/
def fmtCivil (c : Int × Nat × Nat) : String :=
  pad2 c.2.1 ++ "/" ++ pad2 c.2.2 ++ "/" ++ toString c.1

/-- Serial branch of parseExcelDate: epoch milliseconds shifted to the local
timezone (tz in minutes east of UTC, modelling the local-time Date getters),
floored to a day number and rendered. The validity guard of the source,
!isNaN(date.getTime()), always passes on this range and is dropped. -/
def serialFormat (tz : Int) (q : DecQ) : String :=
  fmtCivil (civilFromDays (Int.fdiv (serialMs q + tz * 60000) 86400000))

/-- Structural split of a character list on one separator character,
modelling the split calls of the source on single-character separators. -/
def splitChar (sep : Char) : List Char → List (List Char)
  | [] => [[]]
  | x :: rest =>
    if x = sep then [] :: splitChar sep rest
    else
      match splitChar sep rest with
      | [] => [[x]]
      | cur :: tail => (x :: cur) :: tail

/-- Shape test for the anchored pattern of four digits, a dash, two digits, a
dash and two digits. -/
def isoShape (s : String) : Bool :=
  match s.data with
  | [a, b, c, d, e, f, g, h, i, j] =>
    isDigitChar a && isDigitChar b && isDigitChar c && isDigitChar d &&
    e = '-' && isDigitChar f && isDigitChar g && h = '-' &&
    isDigitChar i && isDigitChar j
  | _ => false

/-- ISO branch: split on the dashes and reorder, with no range validation,
exactly as the source interpolates parts 1, 2 and 0. -/
def isoConv (s : String) : String :=
  let parts := splitChar '-' s.data
  String.mk (((parts.get? 1).getD []) ++ ['/'] ++ ((parts.get? 2).getD []) ++
    ['/'] ++ ((parts.get? 0).getD []))

/-- Shape test for the anchored pattern of three letters, a slash, one or two
digits, a slash and four digits. -/
def monShape (s : String) : Bool :=
  match splitChar '/' s.data with
  | [a, b, c] =>
    a.length = 3 && a.all isAlphaChar &&
    (b.length = 1 || b.length = 2) && b.all isDigitChar &&
    c.length = 4 && c.all isDigitChar
  | _ => false

/-- Month number of a three-letter month abbreviation, case-insensitively, as
the Date string parser reads it. -/
def monthOfAbbrev (s : String) : Option Nat :=
  let t := lowerStr s
  if t = "jan" then some 1 else if t = "feb" then some 2
  else if t = "mar" then some 3 else if t = "apr" then some 4
  else if t = "may" then some 5 else if t = "jun" then some 6
  else if t = "jul" then some 7 else if t = "aug" then some 8
  else if t = "sep" then some 9 else if t = "oct" then some 10
  else if t = "nov" then some 11 else if t = "dec" then some 12
  else none

/-- Month-name branch: new Date on a Mon/DD/YYYY string parses at local
midnight and the getters read the same local frame, so the timezone cancels
and the civil round trip models the parse; a day outside 1..31 or an unknown
month abbreviation is an invalid Date and falls through to the raw string. -/
def monConv (s : String) : Option String :=
  match splitChar '/' s.data with
  | [a, b, c] =>
    match monthOfAbbrev (String.mk a) with
    | none => none
    | some m =>
      let d := digitsVal b
      if 1 ≤ d && d ≤ 31 then
        some (fmtCivil (civilFromDays (daysFromCivil (digitsVal c) m d)))
      else none
  | _ => none

/-- Model of parseExcelDate (excelService.ts lines 67-96) on a string input;
a null or undefined input short-circuits to the empty string in the source
before this path. tz is the local timezone offset in minutes east of UTC. -/
def parseExcelDate (tz : Int) (value : String) : String :=
  let strVal := jsTrim value
  if strVal = "" then ""
  else
    let serialHit :=
      match jsNumber strVal with
      | some (.finite q) => intLtQ 30000 q && qLtInt q 60000
      | _ => false
    if serialHit then
      match jsNumber strVal with
      | some (.finite q) => serialFormat tz q
      | _ => strVal
    else if isoShape strVal then isoConv strVal
    else if monShape strVal then
      match monConv strVal with
      | some out => out
      | none => strVal
    else strVal

/-- Validity of a rendered date: exactly the shape MM/DD/YYYY with a month in
1..12 and a day in 1..31. -/
def validMMDDYYYY (s : String) : Bool :=
  match s.data with
  | [m1, m2, s1, d1, d2, s2, y1, y2, y3, y4] =>
    isDigitChar m1 && isDigitChar m2 && s1 = '/' &&
    isDigitChar d1 && isDigitChar d2 && s2 = '/' &&
    isDigitChar y1 && isDigitChar y2 && isDigitChar y3 && isDigitChar y4 &&
    1 ≤ digitsVal [m1, m2] && digitsVal [m1, m2] ≤ 12 &&
    1 ≤ digitsVal [d1, d2] && digitsVal [d1, d2] ≤ 31
  | _ => false

/-- Claim C4: date normalization of the reconciler. The serial input 45000
renders as a valid MM/DD/YYYY string; the ISO input 2024-03-05 and the
month-name input Mar/5/2024 both render as 03/05/2024 in every timezone; and
the serial conversion is anchored at the day-count epoch 1899-12-30 (whose
day number relative to 1970-01-01 is -25569) with a 12-hour offset, so an
integral serial n in the accepted range lands on day n - 25569. -/
theorem C4_date_normalization :
    validMMDDYYYY (parseExcelDate 0 "45000") = true ∧
    (∀ tz : Int, parseExcelDate tz "2024-03-05" = "03/05/2024") ∧
    (∀ tz : Int, parseExcelDate tz "Mar/5/2024" = "03/05/2024") ∧
    daysFromCivil 1899 12 30 = -25569 ∧ civilFromDays 0 = (1970, 1, 1) ∧
    (∀ n : Int, 30000 < n → n < 60000 →
      serialMs (DecQ.ofInt n) = (n - 25569) * 86400000 + 43200000 ∧
      Int.fdiv (serialMs (DecQ.ofInt n)) 86400000 = n - 25569) := by
  refine ⟨by decide, fun tz => rfl, fun tz => rfl, by decide, by decide,
    fun n _ _ => ⟨?_, ?_⟩⟩
  · show Int.fdiv (2 * ((n - 25569 * 1) * 86400000) + 1) (2 * 1) + 43200000 = _
    rw [Int.fdiv_eq_ediv _ (by omega)]
    omega
  · show Int.fdiv (Int.fdiv (2 * ((n - 25569 * 1) * 86400000) + 1) (2 * 1)
      + 43200000) 86400000 = _
    rw [Int.fdiv_eq_ediv _ (by omega), Int.fdiv_eq_ediv _ (by omega)]
    omega

/-- Witness for C4 at the concrete serial 45000. -/
theorem C4_witness :
    serialMs (DecQ.ofInt 45000) = (45000 - 25569) * 86400000 + 43200000 ∧
    Int.fdiv (serialMs (DecQ.ofInt 45000)) 86400000 = 45000 - 25569 :=
  C4_date_normalization.2.2.2.2.2 45000 (by decide) (by decide)

/-- Numeric strings whose value falls outside the open serial interval
(30000, 60000): the string coerces to a number that is not NaN, and that
number is at most 30000 or at least 60000 (an infinity always qualifies). -/
def outOfSerialRange (s : String) : Bool :=
  match jsNumber s with
  | none => false
  | some (.finite q) => !(intLtQ 30000 q) || !(qLtInt q 60000)
  | some .posInf => true
  | some .negInf => true

/-- Claim C10, counterexample: the input with surrounding blanks coerces to
the number 100 (outside the serial range) and matches no textual date shape,
yet parseExcelDate returns the trimmed string, not the input unchanged. -/
theorem C10_counterexample :
    outOfSerialRange (jsTrim " 100 ") = true ∧
    isoShape (jsTrim " 100 ") = false ∧ monShape (jsTrim " 100 ") = false ∧
    parseExcelDate 0 " 100 " = "100" ∧ "100" ≠ " 100 " := by
  refine ⟨by decide, by decide, by decide, by decide, by decide⟩

/-- Claim C10 as amended: for every input that carries no surrounding
whitespace, coerces to a number at most 30000 or at least 60000 (or an
infinity), and matches neither textual date shape, parseExcelDate returns
the input unchanged, in every timezone; on an input with surrounding
whitespace it returns the trimmed input instead. The function is a total
Lean definition, which models the absence of exceptions. -/
theorem C10_amended (tz : Int) (s : String) (htrim : jsTrim s = s)
    (hnum : outOfSerialRange s = true)
    (hiso : isoShape s = false) (hmon : monShape s = false) :
    parseExcelDate tz s = s := by
  unfold parseExcelDate
  rw [htrim]
  by_cases he : s = ""
  · simp [he]
  · simp only [he, if_neg]
    unfold outOfSerialRange at hnum
    cases hj : jsNumber s with
    | none => rw [hj] at hnum; exact absurd hnum (by simp)
    | some jn =>
      rw [hj] at hnum
      cases jn with
      | finite q =>
        have hcond : (intLtQ 30000 q && qLtInt q 60000) = false := by
          simp only [Bool.or_eq_true] at hnum
          rw [Bool.and_eq_false_iff]
          cases hnum with
          | inl h => exact Or.inl (by simpa using h)
          | inr h => exact Or.inr (by simpa using h)
        simp [hj, hcond, hiso, hmon]
      | posInf => simp [hj, hiso, hmon]
      | negInf => simp [hj, hiso, hmon]

/-- Witness for the amended C10 at the in-range plain numeric string 100. -/
theorem C10_amended_witness : parseExcelDate 0 "100" = "100" :=
  C10_amended 0 "100" (by decide) (by decide) (by decide) (by decide)

/-! Currency formatting (excelService.ts lines 56-64). -/

/-- Model of parseFloat restricted to the cleaned strings it receives here,
which contain only digits, points and minus signs: an optional leading minus,
then the longest prefix shaped digits, an optional point and more digits; at
least one digit must be read, and the unread tail is ignored. -/
def parseFloatMag (l : List Char) : Option DecQ :=
  let (ip, r1) := l.span isDigitChar
  match r1 with
  | '.' :: r2 =>
    let (fp, _) := r2.span isDigitChar
    if ip.isEmpty && fp.isEmpty then none
    else some (decMantissa (digitsVal ip) (digitsVal fp) fp.length)
  | _ => if ip.isEmpty then none else some (DecQ.ofInt (digitsVal ip))

/-- Signed parseFloat over a cleaned string. -/
def parseFloatClean (l : List Char) : Option DecQ :=
  match l with
  | '-' :: rest => (parseFloatMag rest).map DecQ.neg
  | _ => parseFloatMag l

/-- Hundredths of the magnitude of a DecQ, rounded half away from zero, the
default rounding of the en-US number format. -/
def centsOfMag (q : DecQ) : Nat :=
  (Int.fdiv (2 * (q.num.natAbs * 100) + q.den) (2 * q.den)).toNat

/-- Digit grouping: walking the reversed digit list, a comma before every
fourth digit. -/
def groupRev : List Char → Nat → List Char
  | [], _ => []
  | c :: rest, k =>
    if k = 3 then ',' :: c :: groupRev rest 1 else c :: groupRev rest (k + 1)

/-- Model of toLocaleString with the en-US locale and exactly two fraction
digits on an exact decimal value (the source rounds through a binary double;
the values the repository formats are exact at this width). -/
def toLocaleEn2 (q : DecQ) : String :=
  let cents := centsOfMag q
  let ip := cents / 100
  let fp := cents % 100
  (if q.num < 0 then "-" else "") ++
    String.mk ((groupRev (toString ip).data.reverse 0).reverse) ++ "." ++ pad2 fp

/-- Model of formatCurrency (excelService.ts lines 56-64): empty input stays
empty; a string holding a comma and a point with exactly two characters
after the first point is already formatted and returned unchanged; otherwise
every character outside digits, point and minus is stripped, the rest is
read by parseFloat, an unreadable remainder returns the input verbatim, and
a number renders as a two-decimal grouped numeral. -/
def formatCurrency (val : String) : String :=
  if val = "" then ""
  else if strIncludes val "," && strIncludes val "." &&
      ((splitChar '.' val.data).get? 1).map List.length = some 2 then val
  else
    let cleanStr := val.data.filter (fun c => isDigitChar c || c = '.' || c = '-')
    match parseFloatClean cleanStr with
    | none => val
    | some q => toLocaleEn2 q

/-- Claim C5: currency normalization. The input 1200.5 renders as 1,200.50;
an input already shaped 1,200.50 is returned unchanged; and any input whose
cleaned numeric part does not read as a number comes back verbatim. -/
theorem C5_currency_normalization :
    formatCurrency "1200.5" = "1,200.50" ∧
    formatCurrency "1,200.50" = "1,200.50" ∧
    (∀ s : String,
      (parseFloatClean
        (s.data.filter (fun c => isDigitChar c || c = '.' || c = '-'))).isNone =
        true →
      formatCurrency s = s) := by
  refine ⟨by decide, by decide, fun s h => ?_⟩
  rw [Option.isNone_iff_eq_none] at h
  unfold formatCurrency
  by_cases he : s = ""
  · rw [he]; rfl
  · rw [if_neg he]
    by_cases hearly : (strIncludes s "," && strIncludes s "." &&
        ((splitChar '.' s.data).get? 1).map List.length = some 2) = true
    · rw [if_pos hearly]
    · rw [if_neg hearly]
      simp only [h]

/-- Witness for C5 on an input whose cleaned part is unreadable. -/
theorem C5_witness : formatCurrency "abc" = "abc" :=
  C5_currency_normalization.2.2 "abc" (by decide)

/-! Data model for tables and records; record search (SearchPanel component,
searchRecords, lines 1045-1080 of the concatenated service file). -/

/-- Record: an ordered mapping from column names to cell values, values taken
in their string image. -/
abbrev Row : Type := List (String × String)

/-- First value stored under a key, none when the key is absent (the
undefined of a property access). -/
def rowLookup (r : Row) (k : String) : Option String :=
  match r with
  | [] => none
  | (k0, v) :: rest => if k0 = k then some v else rowLookup rest k

/-- Model of the expression String(row[col] or-else the empty string): a
missing key and a falsy empty value both read as the empty string. -/
def jsStrOr (r : Row) (k : String) : String :=
  match rowLookup r k with
  | some v => v
  | none => ""

/-- Model of String(row[col]) with no falsy guard: a missing key is the
undefined value, whose string image is the word undefined (the source only
reaches this on rows parsed with a default value for every column). -/
def jsStr (r : Row) (k : String) : String :=
  match rowLookup r k with
  | some v => v
  | none => "undefined"

/-- Parsed table as the TableStore hands it to the search. -/
structure ParsedDatabase where
  fileName : String
  columns : List String
  data : List Row

/-- Per-table column configuration resolved by the SearchPanel. -/
structure DbConfig where
  midCol : String
  nameCol : String
  mappings : List (String × String)

/-- Which column a search reads: the identifier column or the name column. -/
inductive SearchKind where
  | byMid
  | byName

/-- Search result: the matched record annotated with its source table name
(the source spreads the row and adds a provenance key; the pair is the same
data). -/
structure Hit where
  record : Row
  sourceFile : String
deriving DecidableEq

def configLookup (cfgs : List (String × DbConfig)) (f : String) : Option DbConfig :=
  match cfgs with
  | [] => none
  | (k, c) :: rest => if k = f then some c else configLookup rest f

/-- Matches one table contributes, in row order: nothing without a config or
with an empty column, else the rows whose normalized cell on the chosen
column contains the normalized query. -/
def dbMatches (cfgs : List (String × DbConfig)) (key : String) (k : SearchKind)
    (db : ParsedDatabase) : List Row :=
  match configLookup cfgs db.fileName with
  | none => []
  | some cfg =>
    let col := match k with | .byMid => cfg.midCol | .byName => cfg.nameCol
    if col = "" then []
    else db.data.filter (fun row => strIncludes (normalizeKey (jsStrOr row col)) key)

/-- Inner loop of the search: push matches one by one, stopping at the global
cap of twenty. -/
def pushCapped (file : String) (ms : List Row) (acc : List Hit) : List Hit :=
  match ms with
  | [] => acc
  | m :: rest =>
    if 20 ≤ acc.length then acc
    else pushCapped file rest (acc ++ [⟨m, file⟩])

/-- Outer loop of the search over the eligible tables, with the same cap
check before each table. -/
def searchLoop (cfgs : List (String × DbConfig)) (key : String) (k : SearchKind) :
    List ParsedDatabase → List Hit → List Hit
  | [], acc => acc
  | db :: rest, acc =>
    if 20 ≤ acc.length then acc
    else searchLoop cfgs key k rest (pushCapped db.fileName (dbMatches cfgs key k db) acc)

/-- Model of searchRecords: an empty table list or a whitespace-only query
yields nothing; otherwise only tables whose lower-cased name contains hold
are scanned, in load order, under the global cap of twenty. -/
def searchRecords (databases : List ParsedDatabase)
    (cfgs : List (String × DbConfig)) (query : String) (k : SearchKind) : List Hit :=
  if databases.isEmpty || jsTrim query = "" then []
  else
    searchLoop cfgs (normalizeKey query) k
      (databases.filter (fun d => strIncludes (lowerStr d.fileName) "hold")) []

/-- Uncapped concatenation of every eligible table's matches, annotated, in
table order: the reference stream the capped loop takes a prefix of. -/
def allMatches (databases : List ParsedDatabase)
    (cfgs : List (String × DbConfig)) (query : String) (k : SearchKind) : List Hit :=
  ((databases.filter (fun d => strIncludes (lowerStr d.fileName) "hold")).map
    (fun db => (dbMatches cfgs (normalizeKey query) k db).map
      (fun m => Hit.mk m db.fileName))).flatten

theorem pushCapped_eq_take (file : String) (ms : List Row) (acc : List Hit)
    (h : acc.length ≤ 20) :
    pushCapped file ms acc = (acc ++ ms.map (fun m => Hit.mk m file)).take 20 := by
  induction ms generalizing acc with
  | nil => simp [pushCapped, List.take_of_length_le h]
  | cons m rest ih =>
    unfold pushCapped
    by_cases hc : 20 ≤ acc.length
    · have : acc.length = 20 := le_antisymm h hc
      rw [if_pos hc, List.take_append_eq_append_take]
      simp [this, List.take_of_length_le, this ▸ h]
    · rw [if_neg hc]
      have hlen2 : (acc ++ [Hit.mk m file]).length ≤ 20 := by
        rw [List.length_append]; simp; omega
      rw [ih (acc ++ [Hit.mk m file]) hlen2]
      simp

theorem searchLoop_eq_take (cfgs : List (String × DbConfig)) (key : String)
    (k : SearchKind) (dbs : List ParsedDatabase) (acc : List Hit)
    (h : acc.length ≤ 20) :
    searchLoop cfgs key k dbs acc =
      (acc ++ (dbs.map (fun db => (dbMatches cfgs key k db).map
        (fun m => Hit.mk m db.fileName))).flatten).take 20 := by
  induction dbs generalizing acc with
  | nil => simp [searchLoop, List.take_of_length_le h]
  | cons db rest ih =>
    unfold searchLoop
    by_cases hc : 20 ≤ acc.length
    · have : acc.length = 20 := le_antisymm h hc
      rw [if_pos hc, List.take_append_eq_append_take]
      simp [this, List.take_of_length_le, this ▸ h]
    · rw [if_neg hc, pushCapped_eq_take _ _ _ h]
      have hlen : ((acc ++ (dbMatches cfgs key k db).map
          (fun m => Hit.mk m db.fileName)).take 20).length ≤ 20 :=
        (List.length_take_le _ _).trans (le_refl 20)
      rw [ih _ hlen]
      rw [List.map_cons, List.flatten_cons, ← List.append_assoc]
      generalize acc ++ (dbMatches cfgs key k db).map (fun m => Hit.mk m db.fileName) = l
      generalize (List.map (fun db => (dbMatches cfgs key k db).map
        (fun m => Hit.mk m db.fileName)) rest).flatten = l2
      by_cases hl : l.length ≤ 20
      · rw [List.take_of_length_le hl]
      · rw [List.take_append_eq_append_take, List.take_append_eq_append_take,
          List.take_take]
        have h1 : min 20 20 = 20 := by omega
        have h2 : 20 - (l.take 20).length = 0 := by
          rw [List.length_take]; omega
        have h3 : 20 - l.length = 0 := by omega
        have h4 : (20 : Nat) - 20 ⊓ l.length = 0 := by omega
        simp [h1, h2, h3, h4]

/-- Characterization: the search result is exactly the first twenty elements
of the uncapped concatenation of eligible-table matches in table order. -/
theorem searchRecords_eq_take (databases : List ParsedDatabase)
    (cfgs : List (String × DbConfig)) (query : String) (k : SearchKind)
    (hne : (databases.isEmpty || jsTrim query = "") = false) :
    searchRecords databases cfgs query k =
      (allMatches databases cfgs query k).take 20 := by
  unfold searchRecords allMatches
  rw [if_neg (by simp_all)]
  rw [searchLoop_eq_take _ _ _ _ _ (by simp)]
  simp

theorem mem_allMatches_sourced {databases : List ParsedDatabase}
    {cfgs : List (String × DbConfig)} {query : String} {k : SearchKind} {h : Hit}
    (hm : h ∈ allMatches databases cfgs query k) :
    strIncludes (lowerStr h.sourceFile) "hold" = true := by
  unfold allMatches at hm
  rw [List.mem_flatten] at hm
  obtain ⟨l, hl, hhl⟩ := hm
  rw [List.mem_map] at hl
  obtain ⟨db, hdb, rfl⟩ := hl
  rw [List.mem_map] at hhl
  obtain ⟨m, _, rfl⟩ := hhl
  exact (List.mem_filter.mp hdb).2

/-- Claim C6: the search eligibility predicate is honored. Every hit the
record search returns is sourced from a table whose lower-cased name
contains hold; in particular no hit is ever sourced from RM_Master.xlsx,
whatever the loaded tables, configurations and query. -/
theorem C6_search_eligibility :
    (∀ (databases : List ParsedDatabase) (cfgs : List (String × DbConfig))
      (query : String) (k : SearchKind) (h : Hit),
      h ∈ searchRecords databases cfgs query k →
      strIncludes (lowerStr h.sourceFile) "hold" = true) ∧
    (∀ (databases : List ParsedDatabase) (cfgs : List (String × DbConfig))
      (query : String) (k : SearchKind) (h : Hit),
      h ∈ searchRecords databases cfgs query k →
      h.sourceFile ≠ "RM_Master.xlsx") := by
  have main : ∀ (databases : List ParsedDatabase) (cfgs : List (String × DbConfig))
      (query : String) (k : SearchKind) (h : Hit),
      h ∈ searchRecords databases cfgs query k →
      strIncludes (lowerStr h.sourceFile) "hold" = true := by
    intro databases cfgs query k h hm
    unfold searchRecords at hm
    by_cases hg : (databases.isEmpty || jsTrim query = "") = true
    · rw [if_pos hg] at hm
      exact absurd hm (List.not_mem_nil h)
    · rw [if_neg hg] at hm
      rw [searchLoop_eq_take _ _ _ _ _ (by simp)] at hm
      have hm2 := List.take_subset 20 _ hm
      rw [List.nil_append] at hm2
      exact mem_allMatches_sourced (by unfold allMatches; exact hm2)
  refine ⟨main, fun databases cfgs query k h hm hfile => ?_⟩
  have := main databases cfgs query k h hm
  rw [hfile] at this
  exact absurd this (by decide)

/-- Witness for C6: a concrete one-table search whose single hit is sourced
from the hold table. -/
theorem C6_witness :
    strIncludes
      (lowerStr (Hit.mk [("MID", "M100")] "Hold_Jan.xlsx").sourceFile) "hold" =
      true :=
  C6_search_eligibility.1
    [ParsedDatabase.mk "Hold_Jan.xlsx" ["MID"] [[("MID", "M100")]]]
    [("Hold_Jan.xlsx", DbConfig.mk "MID" "MID" [])] "M100" .byMid
    (Hit.mk [("MID", "M100")] "Hold_Jan.xlsx") (by decide)

/-- Claim C7: the search result never exceeds twenty hits; an empty or
whitespace-only query returns the empty sequence; and the result is exactly
the first twenty elements of the table-ordered uncapped match stream, so
once twenty hits have accumulated no record of a later table is added. -/
theorem C7_search_cap :
    (∀ (databases : List ParsedDatabase) (cfgs : List (String × DbConfig))
      (query : String) (k : SearchKind),
      (searchRecords databases cfgs query k).length ≤ 20) ∧
    (∀ (databases : List ParsedDatabase) (cfgs : List (String × DbConfig))
      (query : String) (k : SearchKind), jsTrim query = "" →
      searchRecords databases cfgs query k = []) ∧
    (∀ (databases : List ParsedDatabase) (cfgs : List (String × DbConfig))
      (query : String) (k : SearchKind),
      (databases.isEmpty || jsTrim query = "") = false →
      searchRecords databases cfgs query k =
        (allMatches databases cfgs query k).take 20) := by
  refine ⟨fun databases cfgs query k => ?_, fun databases cfgs query k hq => ?_,
    fun databases cfgs query k hg => searchRecords_eq_take _ _ _ _ hg⟩
  · by_cases hg : (databases.isEmpty || jsTrim query = "") = true
    · unfold searchRecords
      rw [if_pos hg]
      simp
    · rw [searchRecords_eq_take _ _ _ _ (by simpa using hg)]
      exact List.length_take_le _ _
  · unfold searchRecords
    rw [if_pos (by simp [hq])]

/-- Witness for C7: a whitespace-only query on a loaded table returns the
empty sequence. -/
theorem C7_witness :
    searchRecords
      [ParsedDatabase.mk "Hold_Jan.xlsx" ["MID"] [[("MID", "M100")]]]
      [("Hold_Jan.xlsx", DbConfig.mk "MID" "MID" [])] "  " .byMid = [] :=
  C7_search_cap.2.1 _ _ "  " .byMid (by decide)

/-! Spreadsheet updater (excelService.ts lines 113-125, 212-236, 241-349
and 354-490). -/

/-- Candidate alias list of the identifier column finder. -/
def midCandidates : List String :=
  ["mid", "merchantid", "merch_id", "id", "merchant_id", "merchant_mid",
   "accountid", "account_id", "outletid", "outlet_id", "outlet_number",
   "card_acceptor_id", "merchant_no", "mid_no", "midnumber", "partyid",
   "party_id", "orgmid", "org_mid", "accountnumber", "cardacceptor",
   "merchnum"]

/-- Model of findMidColumn: the first column whose normalized key is a
candidate alias. -/
def findMidColumn (columns : List String) : Option String :=
  columns.find? (fun col => midCandidates.contains (normalizeKey col))

/-- Static alias table mapping internal form keys to normalized column
names (FIELD_MAPPINGS). -/
def fieldMappings (formKey : String) : Option (List String) :=
  if formKey = "Merchant ID" then some ["mid", "merchantid", "orgmid", "merchant_id"]
  else if formKey = "Merchant Name" then some ["merchantname", "name", "merchant"]
  else if formKey = "POS/ECOM" then some ["pos", "posecom", "type"]
  else if formKey = "RM Name" then some ["rm", "rmname", "relationshipmanager"]
  else if formKey = "Channel SME/KEY/GOV" then
    some ["finalseg", "final_segment", "finalsegment", "segment", "channel",
      "seg", "sub_segment"]
  else if formKey = "Current Status" then some ["status", "currentstatus"]
  else if formKey = "Date of Hold" then some ["dateofhold", "holddate"]
  else if formKey = "Held By" then some ["heldby", "held_by"]
  else if formKey = "Hold Amount" then
    some ["holdamount", "amount", "hold_amount", "amt"]
  else if formKey = "Date Of Relase" then
    some ["releasedate", "dateofrelease", "daterelease", "release_date",
      "released_date"]
  else if formKey = "Released By" then some ["releasedby", "released_by", "rel_by"]
  else if formKey = "Release Amount" then some ["releaseamount", "release_amount"]
  else if formKey = "Reason of hold" then some ["reason", "holdreason", "reason_code"]
  else if formKey = "FMU Remarks" then some ["remarks", "fmuremarks", "comments"]
  else if formKey = "Closed Date" then some ["closeddate", "dateclosed", "closed_date"]
  else if formKey = "Aging of Hold" then
    some ["agingofhold", "aging_hold", "hold_aging", "aging"]
  else if formKey = "Aging between Hold & Release" then
    some ["agingduration", "aging_between", "duration"]
  else if formKey = "Chain ID" then some ["chainid", "chain", "chain_id"]
  else if formKey = "Group Name" then some ["group", "groupname", "group_name"]
  else if formKey = "Team Lead (TL)" then some ["tl", "teamlead", "team_lead"]
  else if formKey = "Final Seg" then
    some ["finalseg", "final_segment", "final_seg", "channel"]
  else if formKey = "Org + MID" then some ["orgmid", "mid", "org_mid"]
  else if formKey = "RM" then some ["rm", "relationshipmanager", "relationship_manager"]
  else none

/-- Target sheet kind of an update request. -/
inductive SheetType where
  | hold
  | rm

/-- Lower-cased token of the sheet kind, targetSheetType.toLowerCase(). -/
def sheetToken : SheetType -> String
  | .hold => "hold"
  | .rm => "rm"

/-- Workbook: the ordered sheets of the external resource, each sheet already
parsed to its records. -/
abbrev Workbook : Type := List (String × List Row)

def sheetLookup (wb : Workbook) (n : String) : Option (List Row) :=
  match wb with
  | [] => none
  | (k, rows) :: rest => if k = n then some rows else sheetLookup rest n

/-- Replacement of one sheet of a workbook by name, keeping order. -/
def sheetSet (wb : Workbook) (n : String) (rows : List Row) : Workbook :=
  match wb with
  | [] => [(n, rows)]
  | (k, r0) :: rest =>
    if k = n then (n, rows) :: rest else (k, r0) :: sheetSet rest n rows

/-- Sheet selection of updateRowInMasterSheet (lines 273-278): the first
sheet whose normalized name contains the kind token, else the first sheet;
none only on an empty workbook. -/
def selectSheetName (names : List String) (token : String) : Option String :=
  match names.find? (fun n => strIncludes (normalizeKey n) token) with
  | some n => some n
  | none => names.head?

/-- Outcome of the append sheet resolution of updateMasterSheet
(lines 399-412). -/
inductive AppendTarget where
  | existing (n : String)
  | createNew (n : String)
deriving DecidableEq

/-- Sheet resolution of updateMasterSheet: the sheet named target when
present, else the first fuzzy match, else the sole sheet when exactly one
exists, else a freshly created sheet named target. -/
def resolveAppendSheet (names : List String) (target token : String) :
    AppendTarget :=
  if names.contains target then .existing target
  else
    match names.find? (fun n => strIncludes (normalizeKey n) token) with
    | some n => .existing n
    | none =>
      match names with
      | [n] => .existing n
      | _ => .createNew target

/-- Error vocabulary of the update state machine; ambiguousSheet is the kind
the specification names in its error list, carried here so that its
reachability can be settled. -/
inductive UpdateErr where
  | emptyKey
  | noLinkedResource
  | permissionDenied
  | readFailure
  | columnNotFound
  | rowNotFound
  | ambiguousSheet
deriving DecidableEq

/-- One run of the updater: its outcome, and the full-resource writes it
performed on the handle (the source writes exactly once, at the final
rewrite step, or not at all). -/
structure UpdateRun where
  outcome : Except UpdateErr Unit
  writes : List Workbook

def listModify (l : List Row) (i : Nat) (f : Row -> Row) : List Row :=
  match l, i with
  | [], _ => []
  | x :: rest, 0 => f x :: rest
  | x :: rest, n + 1 => x :: listModify rest n f

/-- Overwrite of one cell of a record: replace the first entry under the key,
else append the key (property assignment on the parsed row object). -/
def setCell (r : Row) (k v : String) : Row :=
  match r with
  | [] => [(k, v)]
  | (k0, v0) :: rest =>
    if k0 = k then (k, v) :: rest else (k0, v0) :: setCell rest k v

def findIdxAux (p : Row -> Bool) (l : List Row) (i : Nat) : Option Nat :=
  match l with
  | [] => none
  | x :: rest => if p x then some i else findIdxAux p rest (i + 1)

/-- Patch step (lines 309-330): each defined form field resolves a target
column by exact name, then normalized equality, then the alias table, and
overwrites that cell; an unresolved field is skipped. -/
def patchRow (columns : List String) (updatedData : List (String × Option String))
    (row : Row) : Row :=
  updatedData.foldl (fun r kv =>
    match kv.2 with
    | none => r
    | some v =>
      let targetCol :=
        if columns.contains kv.1 then kv.1
        else
          match columns.find? (fun c => normalizeKey c = normalizeKey kv.1) with
          | some c => c
          | none =>
            match fieldMappings kv.1 with
            | some aliases =>
              match columns.find? (fun c => aliases.contains (normalizeKey c)) with
              | some c => c
              | none => ""
            | none => ""
      if targetCol = "" then r else setCell r targetCol v) row

/-- Column universe of a parsed sheet: the keys of its first record, as the
source takes them (every record carries every column because parsing fills
a default value). -/
def rowsColumns (rows : List Row) : List String :=
  match rows with
  | [] => []
  | r :: _ => r.map Prod.fst

/-- Model of updateRowInMasterSheet (excelService.ts lines 241-349), as the
workbook it would write back or the failure it stops at. The
library-availability guard is environmental and outside the model; handle
none models a missing linked resource; permGranted models the readwrite
permission checks; an empty workbook makes the sheet read throw inside the
try block, caught as a failure. -/
def updateRowResult (ty : SheetType) (midToFind : String)
    (updatedData : List (String × Option String)) (handle : Option Workbook)
    (permGranted : Bool) : Except UpdateErr Workbook :=
  if midToFind = "" then .error .emptyKey
  else
    match handle with
    | none => .error .noLinkedResource
    | some wb =>
      if !permGranted then .error .permissionDenied
      else
        match selectSheetName (wb.map Prod.fst) (sheetToken ty) with
        | none => .error .readFailure
        | some sheetName =>
          let jsonData := (sheetLookup wb sheetName).getD []
          let columns := rowsColumns jsonData
          match findMidColumn columns with
          | none => .error .columnNotFound
          | some midCol =>
            match findIdxAux
                (fun row => normalizeKey (jsStr row midCol) == normalizeKey midToFind)
                jsonData 0 with
            | none => .error .rowNotFound
            | some rowIndex =>
              let newRows :=
                listModify jsonData rowIndex (patchRow columns updatedData)
              .ok (sheetSet wb sheetName newRows)

/-- The run the updater performs: the single full-resource write happens
exactly on the success path, at the final rewrite step; every failure path
returns before it. -/
def updateRowInMasterSheet (ty : SheetType) (midToFind : String)
    (updatedData : List (String × Option String)) (handle : Option Workbook)
    (permGranted : Bool) : UpdateRun :=
  match updateRowResult ty midToFind updatedData handle permGranted with
  | .ok w => ⟨.ok (), [w]⟩
  | .error e => ⟨.error e, []⟩

/-- Claim C1, counterexample: a linked resource holding two sheets, neither
of whose normalized names contains the hold token, does not fail with
AmbiguousSheet: the update succeeds, patching the first sheet. -/
theorem C1_counterexample :
    (updateRowInMasterSheet .hold "M1" [("Current Status", some "Closed")]
      (some [("Alpha", [[("MID", "M1"), ("Current Status", "Active")]]),
             ("Beta", [])]) true).outcome = Except.ok () ∧
    ([("Alpha", [[("MID", "M1"), ("Current Status", "Active")]]),
      ("Beta", [])] : Workbook).length = 2 ∧
    (([("Alpha", [[("MID", "M1"), ("Current Status", "Active")]]),
       ("Beta", [])] : Workbook).map Prod.fst).all
      (fun n => !(strIncludes (normalizeKey n) (sheetToken .hold))) = true :=
  ⟨rfl, rfl, by decide⟩

theorem findIdxAux_eq_none {p : Row -> Bool} {l : List Row}
    (h : l.all (fun x => !(p x)) = true) : ∀ i, findIdxAux p l i = none := by
  induction l with
  | nil => intro i; rfl
  | cons x rest ih =>
    intro i
    rw [List.all_cons, Bool.and_eq_true] at h
    have hx : p x = false := by simpa using h.1
    unfold findIdxAux
    rw [if_neg (by simp [hx])]
    exact ih h.2 (i + 1)

theorem updateRowResult_ne_ambiguous (ty : SheetType) (mid : String)
    (upd : List (String × Option String)) (handle : Option Workbook)
    (perm : Bool) :
    updateRowResult ty mid upd handle perm ≠
      Except.error UpdateErr.ambiguousSheet := by
  unfold updateRowResult
  by_cases h1 : mid = ""
  · simp [h1]
  rw [if_neg h1]
  cases handle with
  | none => simp
  | some wb =>
    dsimp only
    by_cases h2 : (!perm) = true
    · rw [if_pos h2]; simp
    · rw [if_neg h2]
      cases hsel : selectSheetName (wb.map Prod.fst) (sheetToken ty) with
      | none => simp [hsel]
      | some sn =>
        simp only [hsel]
        cases hmc : findMidColumn (rowsColumns ((sheetLookup wb sn).getD [])) with
        | none => simp [hmc]
        | some mc =>
          simp only [hmc]
          cases hidx : findIdxAux
              (fun row => normalizeKey (jsStr row mc) == normalizeKey mid)
              ((sheetLookup wb sn).getD []) 0 with
          | none => simp [hidx]
          | some i => simp [hidx]

/-- Claim C1 as amended: sheet selection inside the linked resource picks the
first sheet whose normalized name contains the resourceKind token; when no
sheet matches, updateRowInMasterSheet falls back to the first sheet
unconditionally, so it never fails with AmbiguousSheet; the append path of
updateMasterSheet falls back to the sole sheet when exactly one exists and
otherwise creates a new sheet under the target name rather than failing. -/
theorem C1_amended :
    (∀ (ty : SheetType) (mid : String) (upd : List (String × Option String))
      (handle : Option Workbook) (perm : Bool),
      (updateRowInMasterSheet ty mid upd handle perm).outcome ≠
        Except.error UpdateErr.ambiguousSheet) ∧
    (∀ (names : List String) (token : String),
      (∀ n ∈ names, strIncludes (normalizeKey n) token = false) →
      selectSheetName names token = names.head?) ∧
    (∀ (names : List String) (token n : String),
      selectSheetName names token = some n →
      strIncludes (normalizeKey n) token = true ∨ names.head? = some n) ∧
    (∀ (names : List String) (target token : String),
      2 ≤ names.length → names.contains target = false →
      (∀ n ∈ names, strIncludes (normalizeKey n) token = false) →
      resolveAppendSheet names target token = .createNew target) := by
  refine ⟨?_, ?_, ?_, ?_⟩
  · intro ty mid upd handle perm
    unfold updateRowInMasterSheet
    cases hres : updateRowResult ty mid upd handle perm with
    | ok w => simp
    | error e =>
      have hne := updateRowResult_ne_ambiguous ty mid upd handle perm
      rw [hres] at hne
      simp only [Except.error.injEq] at hne ⊢
      simpa using hne
  · intro names token hnone
    unfold selectSheetName
    rw [List.find?_eq_none.mpr (by intro n hn; simp [hnone n hn])]
  · intro names token n hsel
    unfold selectSheetName at hsel
    cases hf : names.find? (fun n => strIncludes (normalizeKey n) token) with
    | some n0 =>
      rw [hf] at hsel
      cases hsel
      exact Or.inl (by simpa using List.find?_some hf)
    | none =>
      rw [hf] at hsel
      exact Or.inr hsel
  · intro names target token hlen hcont hnone
    unfold resolveAppendSheet
    rw [if_neg (by simpa using hcont)]
    rw [List.find?_eq_none.mpr (by intro n hn; simp [hnone n hn])]
    match names, hlen with
    | a :: b :: rest, _ => rfl

/-- Witness for the amended C1: with two non-matching sheet names the
selection falls back to the first sheet. -/
theorem C1_amended_witness : selectSheetName ["Alpha", "Beta"] "hold" = some "Alpha" :=
  (C1_amended.2.1 ["Alpha", "Beta"] "hold" (by decide)).trans rfl

/-- Claim C2: an update whose normalized rowKey matches no row of the
selected sheet fails with RowNotFound and performs no write; and every
failing run of the updater, whatever the failure, performs no write. -/
theorem C2_row_not_found_no_write :
    (∀ (ty : SheetType) (mid : String) (upd : List (String × Option String))
      (wb : Workbook) (sn mc : String),
      mid ≠ "" →
      selectSheetName (wb.map Prod.fst) (sheetToken ty) = some sn →
      findMidColumn (rowsColumns ((sheetLookup wb sn).getD [])) = some mc →
      (((sheetLookup wb sn).getD []).all
        (fun row => !(normalizeKey (jsStr row mc) == normalizeKey mid))) = true →
      updateRowInMasterSheet ty mid upd (some wb) true =
        ⟨Except.error UpdateErr.rowNotFound, []⟩) ∧
    (∀ (ty : SheetType) (mid : String) (upd : List (String × Option String))
      (handle : Option Workbook) (perm : Bool) (e : UpdateErr),
      (updateRowInMasterSheet ty mid upd handle perm).outcome = Except.error e →
      (updateRowInMasterSheet ty mid upd handle perm).writes = []) := by
  constructor
  · intro ty mid upd wb sn mc hmid hsel hmc hall
    have hres : updateRowResult ty mid upd (some wb) true =
        Except.error UpdateErr.rowNotFound := by
      unfold updateRowResult
      rw [if_neg hmid]
      simp only [hsel, hmc, findIdxAux_eq_none hall 0, Bool.not_true]
      rw [if_neg (by simp)]
    unfold updateRowInMasterSheet
    rw [hres]
  · intro ty mid upd handle perm e houtcome
    unfold updateRowInMasterSheet at houtcome ⊢
    cases hres : updateRowResult ty mid upd handle perm with
    | ok w => rw [hres] at houtcome; exact absurd houtcome (by simp)
    | error e0 => rfl

/-- Witness for C2: the identifier M999 is absent from the linked resource,
so the update fails with RowNotFound and writes nothing. -/
theorem C2_witness :
    updateRowInMasterSheet .hold "M999" [("Current Status", some "Closed")]
      (some [("Data", [[("MID", "M1")]])]) true =
      ⟨Except.error UpdateErr.rowNotFound, []⟩ :=
  C2_row_not_found_no_write.1 .hold "M999" [("Current Status", some "Closed")]
    [("Data", [[("MID", "M1")]])] "Data" "MID" (by decide) (by decide)
    (by decide) (by decide)

/-! Record reconciliation into the canonical form (SearchPanel component,
handleSelectRecord, lines 1104-1152 of the concatenated service file). -/

/-- The canonical form fields, FIELD_GROUPS flattened (ALL_FORM_FIELDS). -/
def allFormFields : List String :=
  ["Current Status", "Account / Settlement Hold", "Date of Hold", "Held By",
   "POS/ECOM", "RM Name", "Channel SME/KEY/GOV", "Reason of hold",
   "FMU Remarks", "Date Of Relase", "Released By", "Closed Date",
   "Hold Amount", "Release Amount", "Aging of Hold",
   "Aging between Hold & Release", "added By"]

/-- Fields whose declared kind is date. -/
def dateFormFields : List String :=
  ["Date of Hold", "Date Of Relase", "Closed Date"]

/-- Fields formatted as currency on retrieval. -/
def currencyFormFields : List String := ["Hold Amount", "Release Amount"]

/-- Active user profile; an empty default models an absent (falsy) one. -/
structure Profile where
  defaultHeldBy : String
  defaultPosEcom : String

/-- Mapped column of a form field: the profile mapping entry when truthy. -/
def mappedCol (cfg : DbConfig) (f : String) : Option String :=
  match rowLookup cfg.mappings f with
  | some c => if c = "" then none else some c
  | none => none

/-- First read of a form field: the mapped column when set, else the field
label itself as a column name. -/
def primaryVal (record : Row) (cfg : DbConfig) (f : String) : Option String :=
  match mappedCol cfg f with
  | some c => rowLookup record c
  | none => rowLookup record f

/-- Fuzzy fallback, restricted to the keys of the record: the value of the
first key whose normalized key equals the normalized field label. -/
def fuzzyVal (record : Row) (f : String) : Option String :=
  match record.find? (fun kv => normalizeKey kv.1 == normalizeKey f) with
  | some kv => some kv.2
  | none => none

/-- Value resolution for one form field from the primary record alone: the
profile-mapped column when non-empty, else the field label itself as a
column, and on an undefined result the fuzzy normalized-key fallback. -/
def resolveFieldVal (record : Row) (cfg : DbConfig) (f : String) : Option String :=
  match primaryVal record cfg f with
  | some v => some v
  | none => fuzzyVal record f

/-- Kind-specific normalization on retrieval: a truthy date-field value runs
through parseExcelDate, a truthy currency-field value through
formatCurrency. -/
def fmtField (tz : Int) (f v : String) : String :=
  let v1 :=
    if dateFormFields.contains f && !(v == "") then parseExcelDate tz v else v
  if currencyFormFields.contains f && !(v1 == "") then formatCurrency v1 else v1

/-- The form before profile defaults: the merchant name from the name column
when the column is set and present, then every form field that resolves,
formatted. -/
def buildFormBase (tz : Int) (record : Row) (cfg : DbConfig) : Row :=
  (match (if cfg.nameCol = "" then none else rowLookup record cfg.nameCol) with
   | some w => [("Merchant Name", w)]
   | none => []) ++
  allFormFields.filterMap
    (fun f => (resolveFieldVal record cfg f).map (fun w => (f, fmtField tz f w)))

/-- Falsy test on a form entry: absent or empty. -/
def rowFalsy (r : Row) (k : String) : Bool :=
  match rowLookup r k with
  | none => true
  | some v => v == ""

/-- Profile defaults, applied only to a still-falsy Held By and POS/ECOM. -/
def applyProfile (p : Option Profile) (form : Row) : Row :=
  match p with
  | none => form
  | some prof =>
    let f1 :=
      if rowFalsy form "Held By" && !(prof.defaultHeldBy == "") then
        setCell form "Held By" prof.defaultHeldBy
      else form
    if rowFalsy f1 "POS/ECOM" && !(prof.defaultPosEcom == "") then
      setCell f1 "POS/ECOM" prof.defaultPosEcom
    else f1

/-- Model of the form handleSelectRecord builds from the selected record:
the record, the configuration of its source table, and the active profile
are its only inputs. -/
def handleSelectRecordForm (tz : Int) (record : Row) (cfg : DbConfig)
    (p : Option Profile) : Row :=
  applyProfile p (buildFormBase tz record cfg)

/-- Claim C3, counterexample: a second loaded table carries a row whose
normalized identifier equals the primary identifier and which holds a value
for Held By, yet the form built for the primary record leaves Held By
unpopulated: no secondary corroborating source is consulted. -/
theorem C3_counterexample :
    rowLookup [("MID", "M1"), ("Held By", "Alice")] "Held By" = some "Alice" ∧
    normalizeKey (jsStrOr [("MID", "M1"), ("Held By", "Alice")] "MID") =
      normalizeKey (jsStrOr [("MID", "M1"), ("Merchant Name", "Shop")] "MID") ∧
    rowLookup [("MID", "M1"), ("Merchant Name", "Shop")] "Held By" = none ∧
    rowLookup
      (handleSelectRecordForm 0 [("MID", "M1"), ("Merchant Name", "Shop")]
        (DbConfig.mk "MID" "Merchant Name" []) none) "Held By" = none := by
  refine ⟨by decide, by decide, by decide, by decide⟩

theorem rowLookup_nil (k : String) : rowLookup [] k = none := rfl

theorem rowLookup_cons (k0 v0 : String) (r : Row) (k : String) :
    rowLookup ((k0, v0) :: r) k = if k0 = k then some v0 else rowLookup r k := rfl

theorem rowLookup_mem {r : Row} {k v : String} (h : rowLookup r k = some v) :
    (k, v) ∈ r := by
  induction r with
  | nil => exact absurd h (by simp [rowLookup])
  | cons kv rest ih =>
    obtain ⟨k0, v0⟩ := kv
    rw [rowLookup_cons] at h
    by_cases he : k0 = k
    · rw [if_pos he] at h
      cases h
      exact he ▸ List.mem_cons_self _ _
    · rw [if_neg he] at h
      exact List.mem_cons_of_mem _ (ih h)

theorem rowLookup_append {l1 l2 : Row} {k : String} :
    rowLookup (l1 ++ l2) k =
      match rowLookup l1 k with
      | some v => some v
      | none => rowLookup l2 k := by
  induction l1 with
  | nil => rfl
  | cons kv rest ih =>
    obtain ⟨k0, v0⟩ := kv
    rw [List.cons_append, rowLookup_cons, rowLookup_cons]
    by_cases he : k0 = k
    · rw [if_pos he, if_pos he]
    · rw [if_neg he, if_neg he, ih]

theorem rowLookup_setCell (r : Row) (k v x : String) :
    rowLookup (setCell r k v) x = if x = k then some v else rowLookup r x := by
  induction r with
  | nil =>
    show rowLookup [(k, v)] x = _
    rw [rowLookup_cons]
    by_cases he : k = x
    · rw [if_pos he, if_pos he.symm]
    · rw [if_neg he, if_neg (fun h => he h.symm)]
  | cons kv rest ih =>
    obtain ⟨k0, v0⟩ := kv
    show rowLookup
        (if k0 = k then (k, v) :: rest else (k0, v0) :: setCell rest k v) x = _
    by_cases h0 : k0 = k
    · rw [if_pos h0, rowLookup_cons, rowLookup_cons]
      by_cases he : k = x
      · rw [if_pos he, if_pos he.symm]
      · rw [if_neg he, if_neg (fun h => he h.symm),
          if_neg (fun h => he (h0.symm.trans h))]
    · rw [if_neg h0, rowLookup_cons, rowLookup_cons, ih]
      by_cases h1 : k0 = x
      · rw [if_pos h1, if_pos h1, if_neg (fun h : x = k => h0 (h1.trans h))]
      · rw [if_neg h1, if_neg h1]

theorem lookup_fieldsMap {fields : List String} {g : String → Option String}
    {fm : String → String → String} {x v : String}
    (h : rowLookup
      (fields.filterMap (fun f => (g f).map (fun w => (f, fm f w)))) x =
      some v) :
    ∃ w, g x = some w ∧ v = fm x w := by
  induction fields with
  | nil => exact absurd h (by simp [rowLookup])
  | cons f fs ih =>
    rw [List.filterMap_cons] at h
    cases hg : g f with
    | none => rw [hg] at h; exact ih h
    | some w =>
      rw [hg] at h
      simp only [Option.map_some'] at h
      rw [rowLookup_cons] at h
      by_cases he : f = x
      · subst he
        rw [if_pos rfl] at h
        cases h
        exact ⟨w, hg, rfl⟩
      · rw [if_neg he] at h
        exact ih h

theorem primaryVal_mem {record : Row} {cfg : DbConfig} {f u : String}
    (h : primaryVal record cfg f = some u) : ∃ k, (k, u) ∈ record := by
  unfold primaryVal at h
  cases hm : mappedCol cfg f with
  | none =>
    simp only [hm] at h
    exact ⟨f, rowLookup_mem h⟩
  | some c =>
    simp only [hm] at h
    exact ⟨c, rowLookup_mem h⟩

theorem fuzzyVal_mem {record : Row} {f u : String}
    (h : fuzzyVal record f = some u) : ∃ k, (k, u) ∈ record := by
  unfold fuzzyVal at h
  cases hf : record.find? (fun kv => normalizeKey kv.1 == normalizeKey f) with
  | none =>
    simp only [hf] at h
    exact absurd h (by simp)
  | some kv =>
    simp only [hf] at h
    cases h
    exact ⟨kv.1, by simpa using List.mem_of_find?_eq_some hf⟩

theorem resolveFieldVal_mem {record : Row} {cfg : DbConfig} {f w : String}
    (h : resolveFieldVal record cfg f = some w) : ∃ k, (k, w) ∈ record := by
  unfold resolveFieldVal at h
  cases hp : primaryVal record cfg f with
  | none =>
    simp only [hp] at h
    exact fuzzyVal_mem h
  | some u =>
    simp only [hp] at h
    cases h
    exact primaryVal_mem hp

theorem date_currency_disjoint {f : String}
    (h1 : dateFormFields.contains f = true) :
    currencyFormFields.contains f = false := by
  have hmem : f ∈ dateFormFields := by simpa using h1
  simp only [dateFormFields, List.mem_cons, List.mem_singleton] at hmem
  rcases hmem with rfl | rfl | rfl | hmem
  · decide
  · decide
  · decide
  · exact absurd hmem (by simp)

theorem fmtField_cases (tz : Int) (f v : String) :
    fmtField tz f v = v ∨ fmtField tz f v = parseExcelDate tz v ∨
    fmtField tz f v = formatCurrency v := by
  unfold fmtField
  by_cases hd : (dateFormFields.contains f && !(v == "")) = true
  · rw [if_pos hd]
    rw [Bool.and_eq_true] at hd
    rw [date_currency_disjoint hd.1]
    simp
  · rw [if_neg hd]
    by_cases hc : (currencyFormFields.contains f && !(v == "")) = true
    · rw [if_pos hc]; right; right; rfl
    · rw [if_neg hc]; left; rfl

theorem applyProfile_lookup {p : Option Profile} {form : Row} {f v : String}
    (h : rowLookup (applyProfile p form) f = some v) :
    rowLookup form f = some v ∨
    (∃ prof, p = some prof ∧
      ((f = "Held By" ∧ v = prof.defaultHeldBy) ∨
       (f = "POS/ECOM" ∧ v = prof.defaultPosEcom))) := by
  cases p with
  | none => exact Or.inl h
  | some prof =>
    unfold applyProfile at h
    dsimp only at h
    set f1 :=
      if (rowFalsy form "Held By" && !(prof.defaultHeldBy == "")) = true then
        setCell form "Held By" prof.defaultHeldBy
      else form with hf1
    have step1 : ∀ x u, rowLookup f1 x = some u →
        rowLookup form x = some u ∨ (x = "Held By" ∧ u = prof.defaultHeldBy) := by
      intro x u hu
      rw [hf1] at hu
      by_cases hcond :
          (rowFalsy form "Held By" && !(prof.defaultHeldBy == "")) = true
      · rw [if_pos hcond, rowLookup_setCell] at hu
        by_cases hx : x = "Held By"
        · rw [if_pos hx] at hu
          cases hu
          exact Or.inr ⟨hx, rfl⟩
        · rw [if_neg hx] at hu
          exact Or.inl hu
      · rw [if_neg hcond] at hu
        exact Or.inl hu
    by_cases hcond2 :
        (rowFalsy f1 "POS/ECOM" && !(prof.defaultPosEcom == "")) = true
    · rw [if_pos hcond2, rowLookup_setCell] at h
      by_cases hx : f = "POS/ECOM"
      · rw [if_pos hx] at h
        cases h
        exact Or.inr ⟨prof, rfl, Or.inr ⟨hx, rfl⟩⟩
      · rw [if_neg hx] at h
        rcases step1 f v h with h1 | ⟨hf, hv⟩
        · exact Or.inl h1
        · exact Or.inr ⟨prof, rfl, Or.inl ⟨hf, hv⟩⟩
    · rw [if_neg hcond2] at h
      rcases step1 f v h with h1 | ⟨hf, hv⟩
      · exact Or.inl h1
      · exact Or.inr ⟨prof, rfl, Or.inl ⟨hf, hv⟩⟩

/-- Claim C3 as amended: the form handleSelectRecord builds is populated from
the primary match record alone (through the mapped column, the field label,
or a fuzzy key of that record, with date and currency normalization), plus
the profile defaults for Held By and POS/ECOM; a field present only in a
secondary table never populates the output. -/
theorem C3_amended (tz : Int) (record : Row) (cfg : DbConfig)
    (p : Option Profile) (f v : String)
    (h : rowLookup (handleSelectRecordForm tz record cfg p) f = some v) :
    (∃ k w, (k, w) ∈ record ∧
      (v = w ∨ v = parseExcelDate tz w ∨ v = formatCurrency w)) ∨
    (∃ prof, p = some prof ∧
      ((f = "Held By" ∧ v = prof.defaultHeldBy) ∨
       (f = "POS/ECOM" ∧ v = prof.defaultPosEcom))) := by
  unfold handleSelectRecordForm at h
  rcases applyProfile_lookup h with hbase | hprof
  · left
    unfold buildFormBase at h hbase
    rw [rowLookup_append] at hbase
    cases hn :
      rowLookup
        (match (if cfg.nameCol = "" then none else rowLookup record cfg.nameCol) with
         | some w => [("Merchant Name", w)]
         | none => []) f with
    | none =>
      rw [hn] at hbase
      obtain ⟨w, hw, hv⟩ := lookup_fieldsMap hbase
      obtain ⟨k, hk⟩ := resolveFieldVal_mem hw
      rcases fmtField_cases tz f w with hc | hc | hc
      · exact ⟨k, w, hk, Or.inl (hv.trans hc)⟩
      · exact ⟨k, w, hk, Or.inr (Or.inl (hv.trans hc))⟩
      · exact ⟨k, w, hk, Or.inr (Or.inr (hv.trans hc))⟩
    | some w0 =>
      rw [hn] at hbase
      cases hbase
      cases hcol :
          (if cfg.nameCol = "" then none else rowLookup record cfg.nameCol) with
      | none =>
        rw [hcol] at hn
        exact absurd hn (by simp [rowLookup])
      | some w1 =>
        simp only [hcol] at hn
        rw [rowLookup_cons] at hn
        by_cases hf : "Merchant Name" = f
        · rw [if_pos hf] at hn
          have hr : rowLookup record cfg.nameCol = some w1 := by
            by_cases hnc : cfg.nameCol = ""
            · rw [if_pos hnc] at hcol; cases hcol
            · rw [if_neg hnc] at hcol; exact hcol
          exact ⟨cfg.nameCol, w1, rowLookup_mem hr,
            Or.inl (Option.some.inj hn).symm⟩
        · rw [if_neg hf] at hn
          exact absurd hn (by simp [rowLookup])
  · exact Or.inr hprof

/-- Witness for the amended C3: the merchant name of the built form comes
from the primary record. -/
theorem C3_amended_witness :
    (∃ k w, (k, w) ∈ ([("MID", "M1"), ("Merchant Name", "Shop")] : Row) ∧
      ("Shop" = w ∨ "Shop" = parseExcelDate 0 w ∨ "Shop" = formatCurrency w)) ∨
    (∃ prof, (none : Option Profile) = some prof ∧
      (("Merchant Name" = "Held By" ∧ "Shop" = prof.defaultHeldBy) ∨
       ("Merchant Name" = "POS/ECOM" ∧ "Shop" = prof.defaultPosEcom))) :=
  C3_amended 0 [("MID", "M1"), ("Merchant Name", "Shop")]
    (DbConfig.mk "MID" "Merchant Name" []) none "Merchant Name" "Shop"
    (by decide)

/-! Configuration import (storageService.ts lines 275-305). -/

/-- Parsed JSON value of the imported configuration document. -/
inductive JValue where
  | jnull
  | jbool (b : Bool)
  | jstr (s : String)
  | jnum (n : Int)
  | jarr (xs : List JValue)
  | jobj (fields : List (String × JValue))

def lookupField (fs : List (String × JValue)) (k : String) : Option JValue :=
  match fs with
  | [] => none
  | (k0, v) :: rest => if k0 = k then some v else lookupField rest k

/-- Property access config.k: reading a property of null throws a TypeError
(caught and rethrown by the importer), reading an absent property or a
property of a primitive yields undefined. -/
def jsGetField (v : JValue) (k : String) : Except Unit (Option JValue) :=
  match v with
  | .jnull => .error ()
  | .jobj fs => .ok (lookupField fs k)
  | _ => .ok none

/-- JavaScript truthiness of a parsed value. -/
def jsTruthy : JValue → Bool
  | .jnull => false
  | .jbool b => b
  | .jstr s => !(s == "")
  | .jnum n => !(n == 0)
  | .jarr _ => true
  | .jobj _ => true

/-- String image of a value stored as the active profile id (the store keeps
strings; object images are approximated, no claim depends on them). -/
def jsToStr : JValue → String
  | .jnull => "null"
  | .jbool b => if b then "true" else "false"
  | .jstr s => s
  | .jnum n => toString n
  | .jarr _ => ""
  | .jobj _ => "[object Object]"

/-- The stores the importer writes: the profile store keyed by profile id,
and the active profile id of local storage. -/
structure SysState where
  profiles : List (String × JValue)
  activeProfileId : Option String

/-- Key the profile store extracts from a record under its id key path; a
string or number key is accepted, anything else fails the put. -/
def idKey (p : JValue) : Option String :=
  match p with
  | .jobj fs =>
    match lookupField fs "id" with
    | some (.jstr s) => some ("s:" ++ s)
    | some (.jnum n) => some ("n:" ++ toString n)
    | _ => none
  | _ => none

def storePut (store : List (String × JValue)) (k : String) (p : JValue) :
    List (String × JValue) :=
  match store with
  | [] => [(k, p)]
  | (k0, v0) :: rest =>
    if k0 = k then (k, p) :: rest else (k0, v0) :: storePut rest k p

/-- Sequential puts of the imported profiles; a record the store cannot key
stops the loop with an error, the puts already issued staying applied (the
open transaction auto-commits them). -/
def putAll (store : List (String × JValue)) :
    List JValue → List (String × JValue) × Bool
  | [] => (store, true)
  | p :: rest =>
    match idKey p with
    | none => (store, false)
    | some k => putAll (storePut store k p) rest

/-- Error vocabulary of the importer. -/
inductive ImportErr where
  | typeError
  | invalidConfig
  | dataError
deriving DecidableEq

/-- Model of importSystemConfig (storageService.ts lines 275-305) on an
already parsed document (a parse failure throws before anything runs, with
the same empty effect): the profiles field must be an array, or the whole
document is rejected with nothing applied; on the valid path every profile
is put into the store and a truthy activeProfileId is restored afterwards. -/
def importSystemConfig (doc : JValue) (st : SysState) :
    SysState × Except ImportErr Unit :=
  match jsGetField doc "profiles" with
  | .error _ => (st, .error .typeError)
  | .ok v =>
    match v with
    | some (.jarr ps) =>
      match putAll st.profiles ps with
      | (store2, false) => ({ st with profiles := store2 }, .error .dataError)
      | (store2, true) =>
        match jsGetField doc "activeProfileId" with
        | .ok (some idv) =>
          if jsTruthy idv then
            ({ profiles := store2, activeProfileId := some (jsToStr idv) }, .ok ())
          else ({ st with profiles := store2 }, .ok ())
        | _ => ({ st with profiles := store2 }, .ok ())
    | _ => (st, .error .invalidConfig)

/-- The validation the source performs before applying anything: the
profiles field of the parsed document is array-typed (arrays are always
truthy, so the truthiness guard of the source adds nothing on arrays). -/
def hasArrayProfiles (doc : JValue) : Bool :=
  match jsGetField doc "profiles" with
  | .ok (some (.jarr _)) => true
  | _ => false

/-- Claim C8: import validates that the parsed document has an array-typed
profiles field and otherwise rejects the whole document: on every validation
failure the stores are left untouched (neither profiles nor the active
profile id is applied) and an error is reported. -/
theorem C8_import_validation (doc : JValue) (st : SysState)
    (h : hasArrayProfiles doc = false) :
    (importSystemConfig doc st).1 = st ∧
    (importSystemConfig doc st).2 ≠ Except.ok () := by
  unfold hasArrayProfiles at h
  unfold importSystemConfig
  cases hg : jsGetField doc "profiles" with
  | error e => exact ⟨rfl, by simp⟩
  | ok v =>
    rw [hg] at h
    cases v with
    | none => exact ⟨rfl, by simp⟩
    | some jv =>
      cases jv with
      | jnull => exact ⟨rfl, by simp⟩
      | jbool b => exact ⟨rfl, by simp⟩
      | jstr s => exact ⟨rfl, by simp⟩
      | jnum n => exact ⟨rfl, by simp⟩
      | jarr xs => exact absurd h (by simp)
      | jobj fs => exact ⟨rfl, by simp⟩

/-- Witness for C8: a document whose profiles field is a string is rejected
with the state unchanged. -/
theorem C8_witness :
    (importSystemConfig (.jobj [("profiles", .jstr "x")])
      (SysState.mk [] none)).1 = SysState.mk [] none ∧
    (importSystemConfig (.jobj [("profiles", .jstr "x")])
      (SysState.mk [] none)).2 ≠ Except.ok () :=
  C8_import_validation (.jobj [("profiles", .jstr "x")]) (SysState.mk [] none)
    (by decide)

end Frmu
